import Mathlib

/-!
Verification development for a blog-dashboard repository consisting of three
source files: an edit/create form page (zod schema `blogSchema`, slug
generation `generateSlug`, submit handlers), a listing page
(`fetchBlogs`, `handleDelete`, `clearFilters`), and a TinyMCE editor adapter
(`images_upload_handler`).

The embedding is shallow: each event handler becomes a pure function from an
explicit request/read outcome and the pre-state to the post-state; strings are
Lean `String`s, and the two regex replaces of the slug pipeline are modelled
character by character.
-/

namespace BlogApp

/-- A character allowed in a slug: the regex class `[a-z0-9]`. -/
def isSlugChar (c : Char) : Bool :=
  ('a' ≤ c && c ≤ 'z') || ('0' ≤ c && c ≤ '9')

/-- One pass of `.replace(/[^a-z0-9]+/g, '-')`: every maximal run of
characters outside `[a-z0-9]` becomes a single `'-'`.  The boolean state
records whether we are currently inside such a run (so that further run
characters are dropped rather than emitting another hyphen). -/
def collapseAux : List Char → Bool → List Char
  | [], _ => []
  | c :: cs, inRun =>
    if isSlugChar c then c :: collapseAux cs false
    else if inRun then collapseAux cs true
    else '-' :: collapseAux cs true

/-- The `^-` half of `.replace(/(^-|-$)/g, '')`: drop one leading hyphen. -/
def stripLead : List Char → List Char
  | [] => []
  | c :: cs => if c = '-' then cs else c :: cs

/-- The `-$` half of `.replace(/(^-|-$)/g, '')`: drop one trailing hyphen. -/
def stripTrail (l : List Char) : List Char :=
  (stripLead l.reverse).reverse

/-- The slug derivation used by `generateSlug` and (inline) by the title
`onChange` handler:
`title.toLowerCase().replace(/[^a-z0-9]+/g, '-').replace(/(^-|-$)/g, '')`. -/
def slugOfTitle (title : String) : String :=
  ⟨stripTrail (stripLead (collapseAux (title.data.map Char.toLower) false))⟩

/-- The record validated by `blogSchema` and submitted by the form.
`content` is `z.any()` in the source, an opaque payload. -/
structure BlogForm where
  title : String
  slug : String
  excerpt : String
  content : String
  coverImage : String
  status : String
deriving DecidableEq

/-- Splitting a string's characters at `'-'` (pieces may be empty); used to
decide the slug regex `^[a-z0-9]+(?:-[a-z0-9]+)*$`. -/
def splitHyphen : List Char → List (List Char)
  | [] => [[]]
  | c :: cs =>
    if c = '-' then [] :: splitHyphen cs
    else
      match splitHyphen cs with
      | p :: ps => (c :: p) :: ps
      | [] => [[c]]

/-- Decides the slug regex of `blogSchema`: the string is a nonempty sequence
of nonempty `[a-z0-9]` groups separated by single hyphens. -/
def slugRegex (s : String) : Bool :=
  (splitHyphen s.data).all (fun p => !p.isEmpty && p.all isSlugChar)

/-- The zod schema on the slug field: `min(5)` chained with the regex. -/
def slugFieldValid (s : String) : Bool :=
  (5 ≤ s.length) && slugRegex s

/-- `blogSchema.safeParse` outcome: every field rule of the zod object.
`content` is `z.any()` and therefore unconstrained. -/
def blogSchemaValid (b : BlogForm) : Bool :=
  (5 ≤ b.title.length) && slugFieldValid b.slug
    && (10 ≤ b.excerpt.length) && (1 ≤ b.coverImage.length)
    && (b.status == "draft" || b.status == "published")

/-- The `generateSlug` handler of the edit form: reads the current title,
returns unchanged on an empty title (`if (!title) return`), otherwise writes
the derived slug into the form. -/
def generateSlug (s : BlogForm) : BlogForm :=
  if s.title = "" then s else { s with slug := slugOfTitle s.title }

/-- The title field `onChange` handler: first `field.onChange(e)` stores the
new title, then, when the slug is empty or equal to the slug derived from the
(updated) title, `generateSlug` is scheduled via `setTimeout`; the timeout is
modelled as firing with no intervening event. -/
def titleOnChange (v : String) (s : BlogForm) : BlogForm :=
  let s1 := { s with title := v }
  if s1.slug = "" ∨ s1.slug = slugOfTitle s1.title then generateSlug s1 else s1

/-- `form.handleSubmit(onSubmit)`: validates the current values against
`blogSchema`; on success the (JSON of the) record is the request payload,
on validation failure nothing is submitted. -/
def submitForm (b : BlogForm) : Option BlogForm :=
  if blogSchemaValid b then some b else none

/-- The `Update Draft` button: `setValue('status','draft')` then submit. -/
def clickUpdateDraft (b : BlogForm) : Option BlogForm :=
  submitForm { b with status := "draft" }

/-- The `Update & Publish` button: `setValue('status','published')` then
submit. -/
def clickUpdatePublish (b : BlogForm) : Option BlogForm :=
  submitForm { b with status := "published" }

/-- Spec-side notion for the slug derivation: the maximal runs of `[a-z0-9]`
characters of a list, in order (runs of other characters are discarded). -/
def runsOf (l : List Char) : List (List Char) :=
  match l with
  | [] => []
  | c :: cs =>
    if isSlugChar c then
      (c :: cs.takeWhile isSlugChar) :: runsOf (cs.dropWhile isSlugChar)
    else runsOf cs
termination_by l.length
decreasing_by
  · exact Nat.lt_succ_of_le ((List.dropWhile_sublist _).length_le)
  · exact Nat.lt_succ_of_le (Nat.le_refl _)

/-- Joining character groups with a single `'-'` between consecutive groups. -/
def hyphenJoin : List (List Char) → List Char
  | [] => []
  | [p] => p
  | p :: q :: rest => p ++ '-' :: hyphenJoin (q :: rest)

/-- Spec-side slug derivation: lowercase the title and join its maximal
`[a-z0-9]` runs with single hyphens (equivalently: collapse every maximal
run of other characters to one hyphen and strip the leading/trailing
hyphen). -/
def slugSpec (title : String) : String :=
  ⟨hyphenJoin (runsOf (title.data.map Char.toLower))⟩

/-- The slug regex as a language: a nonempty list of nonempty `[a-z0-9]`
groups joined by single hyphens. -/
def SlugPattern (s : String) : Prop :=
  ∃ parts : List (List Char), parts ≠ [] ∧
    (∀ p ∈ parts, p ≠ [] ∧ ∀ c ∈ p, isSlugChar c = true) ∧
    s.data = hyphenJoin parts

/-- Whether the list ends in a character outside `[a-z0-9]`. -/
def endsNonSlug (l : List Char) : Bool :=
  match l.reverse with
  | [] => false
  | d :: _ => !isSlugChar d

/-- The hyphen that `.replace(/[^a-z0-9]+/g,'-')` leaves at the front. -/
def startHyphen (l : List Char) : List Char :=
  match l with
  | [] => []
  | c :: _ => if isSlugChar c then [] else ['-']

/-- The hyphen that `.replace(/[^a-z0-9]+/g,'-')` leaves at the end. -/
def endHyphen (l : List Char) : List Char :=
  if !(runsOf l).isEmpty && endsNonSlug l then ['-'] else []

/-! ## Listing page (`src/app/dashboard/blogs/page.tsx`) -/

/-- The `author` object of the `Blog` interface. -/
structure Author where
  _id : String
  name : String
  email : String
deriving DecidableEq

/-- The `Blog` interface of the listing page. -/
structure Blog where
  _id : String
  title : String
  slug : String
  status : String
  author : Author
  createdAt : String
  updatedAt : String
deriving DecidableEq

/-- One toast notification (`useToast`); `destructive` records whether the
`variant: 'destructive'` option was passed. -/
structure Toast where
  title : String
  description : String
  destructive : Bool
deriving DecidableEq

/-- The local state of `BlogsPage`. -/
structure ListState where
  blogs : List Blog
  loading : Bool
  searchTerm : String
  filterStatus : Option String
  deleteDialogOpen : Bool
  blogToDelete : Option String
  toasts : List Toast
deriving DecidableEq

/-- Outcome of the `GET /api/blogs` request observed by `fetchBlogs`:
a 2xx response carrying the `blogs` field, or a failure (non-2xx response
or network error, both of which reach the `catch`). -/
inductive FetchResult where
  | ok (blogs : List Blog)
  | failure
deriving DecidableEq

/-- The toast raised by `fetchBlogs` on failure. -/
def loadErrorToast : Toast :=
  ⟨"Error", "Failed to load blogs. Please try again.", true⟩

/-- `fetchBlogs`: sets `loading` true, issues the request, on success stores
`data.blogs`, on failure raises a destructive toast, and in the `finally`
block always clears `loading`. -/
def fetchBlogs (res : FetchResult) (s : ListState) : ListState :=
  let s1 := { s with loading := true }
  match res with
  | .ok bs => { s1 with blogs := bs, loading := false }
  | .failure => { s1 with toasts := s1.toasts ++ [loadErrorToast], loading := false }

/-- `clearFilters`: resets the search term and the status filter; nothing
else happens in the handler (any reload is the `useEffect` watching
`filterStatus`). -/
def clearFilters (s : ListState) : ListState :=
  { s with searchTerm := "", filterStatus := none }

/-- Outcome of the `DELETE /api/blogs/{id}` request. -/
inductive DeleteResult where
  | ok
  | failure
deriving DecidableEq

/-- The toast raised by `handleDelete` on success. -/
def deleteSuccessToast : Toast :=
  ⟨"Success", "Blog deleted successfully", false⟩

/-- The toast raised by `handleDelete` on failure. -/
def deleteErrorToast : Toast :=
  ⟨"Error", "Failed to delete blog. Please try again.", true⟩

/-- `handleDelete`: the guard `if (!blogToDelete) return` makes the handler a
complete no-op when the pending target is absent or the empty string (both
falsy in JavaScript) — no request, no toast, and the `finally` block is never
reached.  Otherwise it issues the delete request; on success it keeps exactly
the blogs whose `_id` differs from the target and toasts "Success"; on
failure it toasts the destructive error and leaves the collection untouched;
the `finally` block closes the dialog and clears the pending target in both
cases. -/
def handleDelete (res : DeleteResult) (s : ListState) : ListState :=
  match s.blogToDelete with
  | none => s
  | some target =>
    if target = "" then s
    else
      let s1 :=
        match res with
        | .ok => { s with blogs := s.blogs.filter (fun b => b._id != target),
                          toasts := s.toasts ++ [deleteSuccessToast] }
        | .failure => { s with toasts := s.toasts ++ [deleteErrorToast] }
      { s1 with deleteDialogOpen := false, blogToDelete := none }

/-! ## Editor adapter (`src/components/editor/Tinyeditor.jsx`) -/

/-- Outcome of `FileReader.readAsDataURL` on the dropped/pasted image blob:
`onload` fires with `reader.result` (the blob's contents as a data URL), or
`onerror` fires. -/
inductive BlobRead where
  | ok (dataUrl : String)
  | failure
deriving DecidableEq

/-- `images_upload_handler`: the returned promise resolves with the reader's
result exactly as read (handed back to TinyMCE for inline insertion; no
network request is made on this path) and rejects with the literal
`"error while uploading"` on a blob-read failure. -/
def images_upload_handler (r : BlobRead) : Except String String :=
  match r with
  | .ok dataUrl => .ok dataUrl
  | .failure => .error "error while uploading"

/-! ## Theorems for the claims -/

/-- Sample author record for concrete witnesses. -/
def author0 : Author :=
  ⟨"a1", "Alice", "alice@example.com"⟩

/-- Sample listing state for concrete witnesses: two posts, the delete
confirmation dialog open on the first one. -/
def listState0 : ListState :=
  { blogs := [⟨"id1", "First post", "first-post", "draft", author0, "2024-01-01", "2024-01-02"⟩,
              ⟨"id2", "Second post", "second-post", "published", author0, "2024-01-03", "2024-01-04"⟩],
    loading := false, searchTerm := "", filterStatus := none,
    deleteDialogOpen := true, blogToDelete := some "id1", toasts := [] }

/-- A listing state whose pending confirmed delete target is the empty
string, with one post whose identifier is that empty string and the
confirmation dialog open. -/
def emptyTargetState : ListState :=
  { blogs := [⟨"", "Ghost post", "ghost-post", "draft", author0, "2024-01-01", "2024-01-01"⟩],
    loading := false, searchTerm := "", filterStatus := none,
    deleteDialogOpen := true, blogToDelete := some "", toasts := [] }

/-- Counterexample to claim C3: with the pending confirmed target `""` the
falsy guard `if (!blogToDelete) return` makes the handler return early, so on
a success outcome the post whose identifier equals the target is *not*
removed and the confirmation dialog is *not* closed, and on a failure outcome
no failure notification is surfaced. -/
theorem handleDelete_counterexample :
    emptyTargetState.blogToDelete = some "" ∧
    (handleDelete .ok emptyTargetState).blogs ≠
      emptyTargetState.blogs.filter (fun b => b._id != "") ∧
    (handleDelete .ok emptyTargetState).deleteDialogOpen = true ∧
    (handleDelete .failure emptyTargetState).toasts = emptyTargetState.toasts := by
  refine ⟨rfl, ?_, ?_, ?_⟩ <;> decide

/-- Claim C3 as amended: with a pending confirmed delete target other than
the empty string, a successful delete request keeps exactly the posts whose
identifier differs from the target (a sublist, so the survivors keep their
order) and closes the confirmation dialog, and a failed delete request leaves
the collection unchanged and surfaces the destructive failure toast; a
pending empty-string target is treated by the falsy guard as no pending
delete and the handler does nothing at all. -/
theorem handleDelete_amended (s : ListState) (target : String)
    (h : s.blogToDelete = some target) (hne : target ≠ "") :
    (handleDelete .ok s).blogs = s.blogs.filter (fun b => b._id != target) ∧
    (handleDelete .ok s).blogs.Sublist s.blogs ∧
    (handleDelete .ok s).deleteDialogOpen = false ∧
    (handleDelete .failure s).blogs = s.blogs ∧
    (handleDelete .failure s).toasts = s.toasts ++ [deleteErrorToast] := by
  refine ⟨?_, ?_, ?_, ?_, ?_⟩ <;>
    simp [handleDelete, h, hne, List.filter_sublist]

/-- Witness for the amended C3 at a concrete two-post state with the first
post pending deletion. -/
theorem handleDelete_amended_witness :
    (handleDelete .ok listState0).blogs = listState0.blogs.filter (fun b => b._id != "id1") ∧
    (handleDelete .ok listState0).blogs.Sublist listState0.blogs ∧
    (handleDelete .ok listState0).deleteDialogOpen = false ∧
    (handleDelete .failure listState0).blogs = listState0.blogs ∧
    (handleDelete .failure listState0).toasts = listState0.toasts ++ [deleteErrorToast] :=
  handleDelete_amended listState0 "id1" rfl (by decide)

/-- Claim C4: whatever the outcome of the listing load (2xx response, non-2xx
response, or network failure — the latter two both reach the `catch`), the
loading flag is false afterwards; on success the collection is replaced by
the response's `blogs` field, and on failure the collection is untouched and
the destructive failure toast is surfaced. -/
theorem fetchBlogs_spec (s : ListState) (bs : List Blog) :
    (fetchBlogs (.ok bs) s).loading = false ∧
    (fetchBlogs .failure s).loading = false ∧
    (fetchBlogs (.ok bs) s).blogs = bs ∧
    (fetchBlogs .failure s).blogs = s.blogs ∧
    (fetchBlogs .failure s).toasts = s.toasts ++ [loadErrorToast] := by
  refine ⟨?_, ?_, ?_, ?_, ?_⟩ <;> simp [fetchBlogs]

/-- Claim C9: clearing the filters resets the search term to `""` and the
status filter to unset, and the handler touches nothing else — in particular
it performs no request itself: collection, loading flag, toasts and dialog
state are all unchanged (reloading is the separate `useEffect` watching
`filterStatus`). -/
theorem clearFilters_spec (s : ListState) :
    (clearFilters s).searchTerm = "" ∧
    (clearFilters s).filterStatus = none ∧
    (clearFilters s).blogs = s.blogs ∧
    (clearFilters s).loading = s.loading ∧
    (clearFilters s).toasts = s.toasts ∧
    (clearFilters s).deleteDialogOpen = s.deleteDialogOpen ∧
    (clearFilters s).blogToDelete = s.blogToDelete := by
  refine ⟨?_, ?_, ?_, ?_, ?_, ?_, ?_⟩ <;> simp [clearFilters]

/-- Claim C8: a successfully read image blob resolves the editor's upload
promise with the reader's data-URL result exactly as read (no network call is
modelled on this path), and a blob-read failure rejects it with the literal
upload-error signal, with no retry. -/
theorem images_upload_handler_spec (u : String) :
    images_upload_handler (.ok u) = .ok u ∧
    images_upload_handler .failure = .error "error while uploading" :=
  ⟨rfl, rfl⟩

/-- Claim C7: the explicit slug-generation action is idempotent — running it
again with the title unchanged reproduces exactly the state the first run
produced. -/
theorem generateSlug_idempotent (s : BlogForm) :
    generateSlug (generateSlug s) = generateSlug s := by
  cases s with
  | mk title slug excerpt content coverImage status =>
    by_cases h : title = "" <;> simp [generateSlug, h]

/-- Claim C6: for a fixed assignment of the other fields, the save-as-draft
and publish entry points go through the same validation-plus-submission path
(their payloads exist for exactly the same inputs) and the two payloads agree
on title, slug, excerpt, content and cover image, differing only in the
status field, which is `"draft"` for the first and `"published"` for the
second. -/
theorem submit_status_frame (b : BlogForm) :
    (clickUpdateDraft b).isSome = (clickUpdatePublish b).isSome ∧
    (clickUpdateDraft b).map BlogForm.status = (clickUpdateDraft b).map (fun _ => "draft") ∧
    (clickUpdatePublish b).map BlogForm.status = (clickUpdatePublish b).map (fun _ => "published") ∧
    (clickUpdateDraft b).map BlogForm.title = (clickUpdatePublish b).map BlogForm.title ∧
    (clickUpdateDraft b).map BlogForm.slug = (clickUpdatePublish b).map BlogForm.slug ∧
    (clickUpdateDraft b).map BlogForm.excerpt = (clickUpdatePublish b).map BlogForm.excerpt ∧
    (clickUpdateDraft b).map BlogForm.content = (clickUpdatePublish b).map BlogForm.content ∧
    (clickUpdateDraft b).map BlogForm.coverImage = (clickUpdatePublish b).map BlogForm.coverImage := by
  have hc : blogSchemaValid { b with status := "published" }
      = blogSchemaValid { b with status := "draft" } := by
    simp [blogSchemaValid]
  by_cases hv : blogSchemaValid { b with status := "draft" } = true <;>
    refine ⟨?_, ?_, ?_, ?_, ?_, ?_, ?_, ?_⟩ <;>
      simp [clickUpdateDraft, clickUpdatePublish, submitForm, hc, hv]

/-- A form state in which the slug `"hello"` is exactly the auto-derived
counterpart of the title `"Hello"` — the user never typed a slug that
diverges from the derived value. -/
def neverDivergedState : BlogForm :=
  { title := "Hello", slug := "hello", excerpt := "", content := "",
    coverImage := "", status := "draft" }

/-- Counterexample to claim C5: in `neverDivergedState` the slug equals the
value auto-derived from the title (it was never manually diverged), yet the
title edit to `"Hello World"` does not regenerate the slug — the handler
compares the slug against the derivation of the new title, not against the
divergence history. -/
theorem titleOnChange_counterexample :
    neverDivergedState.slug = slugOfTitle neverDivergedState.title ∧
    (titleOnChange "Hello World" neverDivergedState).slug ≠ slugOfTitle "Hello World" := by
  constructor
  · decide
  · decide

/-- Claim C5 as amended: a title edit regenerates the slug exactly when the
slug is empty or already equals the slug derived from the *new* title (in the
latter case the regeneration writes back the identical value); all other
fields are untouched; the explicit Generate action recomputes the slug from
the current title whenever the title is nonempty, regardless of the slug. -/
theorem titleOnChange_amended (s : BlogForm) (v : String) :
    (titleOnChange v s).title = v ∧
    (titleOnChange v s).slug =
      (if s.slug = "" ∨ s.slug = slugOfTitle v then slugOfTitle v else s.slug) ∧
    (titleOnChange v s).excerpt = s.excerpt ∧
    (titleOnChange v s).content = s.content ∧
    (titleOnChange v s).coverImage = s.coverImage ∧
    (titleOnChange v s).status = s.status ∧
    (generateSlug s).slug = (if s.title = "" then s.slug else slugOfTitle s.title) ∧
    (generateSlug s).title = s.title := by
  have hgen : ∀ t : BlogForm,
      (generateSlug t).slug = (if t.title = "" then t.slug else slugOfTitle t.title) ∧
      (generateSlug t).title = t.title ∧ (generateSlug t).excerpt = t.excerpt ∧
      (generateSlug t).content = t.content ∧ (generateSlug t).coverImage = t.coverImage ∧
      (generateSlug t).status = t.status := by
    intro t
    by_cases h : t.title = "" <;> simp [generateSlug, h]
  by_cases hc : s.slug = "" ∨ s.slug = slugOfTitle v
  · have hc' : ({ s with title := v } : BlogForm).slug = "" ∨
        ({ s with title := v } : BlogForm).slug = slugOfTitle ({ s with title := v } : BlogForm).title := hc
    by_cases hv : v = ""
    · subst hv
      have h0 : slugOfTitle "" = "" := rfl
      have hs : s.slug = "" := by
        rcases hc with h | h
        · exact h
        · rwa [h0] at h
      simp [titleOnChange, hc', hgen, hs, h0, hgen s]
    · simp [titleOnChange, hc', hgen, hv, hc, hgen s]
  · have hc' : ¬ (({ s with title := v } : BlogForm).slug = "" ∨
        ({ s with title := v } : BlogForm).slug = slugOfTitle ({ s with title := v } : BlogForm).title) := hc
    simp [titleOnChange, hc', hc, hgen s]

/-! ## Helper lemmas for the slug pipeline -/

theorem isSlugChar_ne_hyphen {c : Char} (h : isSlugChar c = true) : c ≠ '-' := by
  rintro rfl
  exact absurd h (by decide)

theorem hyphenJoin_cons_cons (p q : List Char) (rest : List (List Char)) :
    hyphenJoin (p :: q :: rest) = p ++ '-' :: hyphenJoin (q :: rest) := rfl

theorem hyphenJoin_consHead (c : Char) (r : List Char) (rest : List (List Char)) :
    hyphenJoin ((c :: r) :: rest) = c :: hyphenJoin (r :: rest) := by
  cases rest <;> rfl

theorem splitHyphen_ne_nil (l : List Char) : splitHyphen l ≠ [] := by
  cases l with
  | nil => simp [splitHyphen]
  | cons c cs =>
    by_cases hc : c = '-'
    · simp [splitHyphen, hc]
    · simp only [splitHyphen, if_neg hc]
      split <;> simp

theorem splitHyphen_cons_ne {c : Char} {cs p : List Char} {ps : List (List Char)}
    (hc : c ≠ '-') (hs : splitHyphen cs = p :: ps) :
    splitHyphen (c :: cs) = (c :: p) :: ps := by
  simp only [splitHyphen, if_neg hc, hs]

theorem hyphenJoin_splitHyphen (l : List Char) : hyphenJoin (splitHyphen l) = l := by
  induction l with
  | nil => rfl
  | cons c cs ih =>
    rcases hs : splitHyphen cs with _ | ⟨p, ps⟩
    · exact absurd hs (splitHyphen_ne_nil cs)
    · by_cases hc : c = '-'
      · subst hc
        rw [show splitHyphen ('-' :: cs) = [] :: splitHyphen cs from by simp [splitHyphen],
          hs, hyphenJoin_cons_cons, List.nil_append, ← hs, ih]
      · rw [splitHyphen_cons_ne hc hs, hyphenJoin_consHead, ← hs, ih]

theorem splitHyphen_no_hyphen (p : List Char) (h : ∀ c ∈ p, c ≠ '-') :
    splitHyphen p = [p] := by
  induction p with
  | nil => rfl
  | cons c p' ih =>
    have hc : c ≠ '-' := h c (List.mem_cons_self c p')
    have ih' := ih (fun x hx => h x (List.mem_cons_of_mem c hx))
    rw [splitHyphen_cons_ne hc ih']

theorem splitHyphen_append_hyphen (p x : List Char) (h : ∀ c ∈ p, c ≠ '-') :
    splitHyphen (p ++ '-' :: x) = p :: splitHyphen x := by
  induction p with
  | nil =>
    rcases hs : splitHyphen x with _ | ⟨q, qs⟩
    · exact absurd hs (splitHyphen_ne_nil x)
    · simp [splitHyphen, hs]
  | cons c p' ih =>
    have hc : c ≠ '-' := h c (List.mem_cons_self c p')
    have ih' := ih (fun y hy => h y (List.mem_cons_of_mem c hy))
    rw [List.cons_append, splitHyphen_cons_ne hc ih']

theorem splitHyphen_hyphenJoin (parts : List (List Char)) (hne : parts ≠ [])
    (h : ∀ p ∈ parts, ∀ c ∈ p, c ≠ '-') :
    splitHyphen (hyphenJoin parts) = parts := by
  match parts with
  | [p] =>
    rw [show hyphenJoin [p] = p from rfl]
    exact splitHyphen_no_hyphen p (h p (List.mem_cons_self p []))
  | p :: q :: rest =>
    rw [hyphenJoin_cons_cons,
      splitHyphen_append_hyphen p _ (h p (List.mem_cons_self p _)),
      splitHyphen_hyphenJoin (q :: rest) (by simp)
        (fun r hr => h r (List.mem_cons_of_mem p hr))]

theorem slugRegex_iff (s : String) : slugRegex s = true ↔ SlugPattern s := by
  constructor
  · intro h
    rw [slugRegex, List.all_eq_true] at h
    refine ⟨splitHyphen s.data, splitHyphen_ne_nil s.data, ?_,
      (hyphenJoin_splitHyphen s.data).symm⟩
    intro p hp
    have hh := h p hp
    rw [Bool.and_eq_true, Bool.not_eq_true', List.isEmpty_eq_false, List.all_eq_true] at hh
    exact ⟨hh.1, hh.2⟩
  · rintro ⟨parts, hne, hprops, hdata⟩
    rw [slugRegex, hdata, splitHyphen_hyphenJoin parts hne
      (fun p hp c hc => isSlugChar_ne_hyphen ((hprops p hp).2 c hc)),
      List.all_eq_true]
    intro p hp
    rw [Bool.and_eq_true, Bool.not_eq_true', List.isEmpty_eq_false, List.all_eq_true]
    exact ⟨(hprops p hp).1, (hprops p hp).2⟩

theorem runsOf_cons_pos {c : Char} (cs : List Char) (hc : isSlugChar c = true) :
    runsOf (c :: cs) = (c :: cs.takeWhile isSlugChar) :: runsOf (cs.dropWhile isSlugChar) := by
  rw [runsOf]
  simp [hc]

theorem runsOf_cons_neg {c : Char} (cs : List Char) (hc : isSlugChar c = false) :
    runsOf (c :: cs) = runsOf cs := by
  rw [runsOf]
  simp [hc]

theorem runsOf_props (l : List Char) :
    ∀ r ∈ runsOf l, r ≠ [] ∧ ∀ c ∈ r, isSlugChar c = true := by
  match l with
  | [] => simp [runsOf]
  | c :: cs =>
    by_cases hc : isSlugChar c
    · rw [runsOf_cons_pos cs hc]
      intro r hr
      rcases List.mem_cons.mp hr with rfl | hr'
      · refine ⟨by simp, ?_⟩
        intro x hx
        rcases List.mem_cons.mp hx with rfl | hx'
        · exact hc
        · exact List.mem_takeWhile_imp hx'
      · exact runsOf_props (cs.dropWhile isSlugChar) r hr'
    · rw [runsOf_cons_neg cs (Bool.not_eq_true _ ▸ eq_false_of_ne_true hc)]
      exact runsOf_props cs
termination_by l.length
decreasing_by
  · exact Nat.lt_succ_of_le ((List.dropWhile_sublist _).length_le)
  · exact Nat.lt_succ_of_le (Nat.le_refl _)

theorem runsOf_eq_nil_iff (l : List Char) :
    runsOf l = [] ↔ ∀ c ∈ l, isSlugChar c = false := by
  induction l with
  | nil => simp [runsOf]
  | cons c cs ih =>
    by_cases hc : isSlugChar c
    · rw [runsOf_cons_pos cs hc]
      simp [hc]
    · have hc' : isSlugChar c = false := eq_false_of_ne_true hc
      rw [runsOf_cons_neg cs hc']
      simp [hc', ih]

theorem endsNonSlug_cons (c : Char) (cs : List Char) (h : cs ≠ []) :
    endsNonSlug (c :: cs) = endsNonSlug cs := by
  rcases hr : cs.reverse with _ | ⟨d, t⟩
  · exact absurd (List.reverse_eq_nil_iff.mp hr) h
  · unfold endsNonSlug
    rw [List.reverse_cons, hr]
    rfl

theorem endsNonSlug_of_all (l : List Char) (hne : l ≠ [])
    (h : ∀ c ∈ l, isSlugChar c = false) : endsNonSlug l = true := by
  rcases hr : l.reverse with _ | ⟨d, t⟩
  · exact absurd (List.reverse_eq_nil_iff.mp hr) hne
  · have hd : d ∈ l := by
      rw [← List.mem_reverse, hr]
      simp
    unfold endsNonSlug
    rw [hr]
    simp [h d hd]

theorem endHyphen_cons_of_ne (c : Char) (cs : List Char) (hne : cs ≠ [])
    (h1 : (runsOf (c :: cs)).isEmpty = (runsOf cs).isEmpty) :
    endHyphen (c :: cs) = endHyphen cs := by
  unfold endHyphen
  rw [h1, endsNonSlug_cons c cs hne]

theorem collapseAux_false_eq (l : List Char) :
    collapseAux l false = startHyphen l ++ collapseAux l true := by
  cases l with
  | nil => rfl
  | cons c cs =>
    by_cases hc : isSlugChar c <;> simp [collapseAux, startHyphen, hc]

theorem collapseAux_true_eq (l : List Char) :
    collapseAux l true = hyphenJoin (runsOf l) ++ endHyphen l := by
  induction l with
  | nil => simp [collapseAux, runsOf, hyphenJoin, endHyphen]
  | cons c cs ih =>
    by_cases hc : isSlugChar c
    · rw [show collapseAux (c :: cs) true = c :: collapseAux cs false from by
        simp [collapseAux, hc]]
      rw [collapseAux_false_eq, ih, runsOf_cons_pos cs hc]
      cases cs with
      | nil =>
        simp [runsOf, hyphenJoin, endHyphen, endsNonSlug, hc, startHyphen, collapseAux]
      | cons d ds =>
        by_cases hd : isSlugChar d
        · have hend : endHyphen (c :: d :: ds) = endHyphen (d :: ds) := by
            refine endHyphen_cons_of_ne c (d :: ds) (List.cons_ne_nil d ds) ?_
            rw [runsOf_cons_pos (d :: ds) hc, runsOf_cons_pos ds hd]
            simp
          rw [hend, List.takeWhile_cons, List.dropWhile_cons, if_pos hd, if_pos hd,
            hyphenJoin_consHead, ← runsOf_cons_pos ds hd,
            show startHyphen (d :: ds) = [] from by simp [startHyphen, hd]]
          simp
        · have hd' : isSlugChar d = false := eq_false_of_ne_true hd
          rw [List.takeWhile_cons, List.dropWhile_cons, if_neg hd, if_neg hd,
            show startHyphen (d :: ds) = ['-'] from by simp [startHyphen, hd']]
          rcases hrn : runsOf (d :: ds) with _ | ⟨r1, rest⟩
          · have hall : ∀ x ∈ d :: ds, isSlugChar x = false :=
              (runsOf_eq_nil_iff (d :: ds)).mp hrn
            have hend : endHyphen (c :: d :: ds) = ['-'] := by
              have h1 : runsOf (c :: d :: ds) = [[c]] := by
                rw [runsOf_cons_pos (d :: ds) hc, List.takeWhile_cons, List.dropWhile_cons,
                  if_neg hd, if_neg hd, hrn]
              unfold endHyphen
              rw [h1, endsNonSlug_cons c (d :: ds) (List.cons_ne_nil d ds),
                endsNonSlug_of_all (d :: ds) (List.cons_ne_nil d ds) hall]
              rfl
            rw [hend]
            simp [hyphenJoin, endHyphen, hrn]
          · have hend : endHyphen (c :: d :: ds) = endHyphen (d :: ds) := by
              refine endHyphen_cons_of_ne c (d :: ds) (List.cons_ne_nil d ds) ?_
              rw [runsOf_cons_pos (d :: ds) hc, List.takeWhile_cons, List.dropWhile_cons,
                if_neg hd, if_neg hd, hrn]
              simp
            rw [hend, hyphenJoin_cons_cons]
            simp
    · have hc' : isSlugChar c = false := eq_false_of_ne_true hc
      rw [show collapseAux (c :: cs) true = collapseAux cs true from by
        simp [collapseAux, hc'], ih, runsOf_cons_neg cs hc']
      cases cs with
      | nil => simp [runsOf, endHyphen, hyphenJoin, hc']
      | cons d ds =>
        rw [endHyphen_cons_of_ne c (d :: ds) (List.cons_ne_nil d ds)
          (by rw [runsOf_cons_neg (d :: ds) hc'])]

theorem stripLead_hyphen (x : List Char) : stripLead ('-' :: x) = x := by
  simp [stripLead]

theorem stripLead_ne_hyphen {c : Char} (x : List Char) (hc : c ≠ '-') :
    stripLead (c :: x) = c :: x := by
  simp [stripLead, hc]

theorem stripTrail_append_hyphen (x : List Char) : stripTrail (x ++ ['-']) = x := by
  rw [stripTrail, List.reverse_append, List.reverse_singleton, List.singleton_append,
    stripLead_hyphen, List.reverse_reverse]

theorem stripTrail_append_ne {d : Char} (y : List Char) (hd : d ≠ '-') :
    stripTrail (y ++ [d]) = y ++ [d] := by
  rw [stripTrail, List.reverse_append, List.reverse_singleton, List.singleton_append,
    stripLead_ne_hyphen _ hd]
  simp

theorem hyphenJoin_getLast (rs : List (List Char)) (hne : rs ≠ [])
    (hp : ∀ r ∈ rs, r ≠ [] ∧ ∀ c ∈ r, isSlugChar c = true) :
    ∃ y d, hyphenJoin rs = y ++ [d] ∧ isSlugChar d = true := by
  match rs with
  | [r] =>
    obtain ⟨hr, hall⟩ := hp r (List.mem_cons_self r [])
    exact ⟨r.dropLast, r.getLast hr,
      by rw [show hyphenJoin [r] = r from rfl, List.dropLast_append_getLast hr],
      hall _ (List.getLast_mem hr)⟩
  | r :: r2 :: rest =>
    obtain ⟨y, d, hj, hd⟩ := hyphenJoin_getLast (r2 :: rest) (List.cons_ne_nil r2 rest)
      (fun x hx => hp x (List.mem_cons_of_mem r hx))
    refine ⟨r ++ '-' :: y, d, ?_, hd⟩
    rw [hyphenJoin_cons_cons, hj]
    simp

/-- The composed source pipeline (collapse the non-slug runs to single
hyphens, then strip one leading and one trailing hyphen) equals the spec-side
join of the maximal `[a-z0-9]` runs. -/
theorem strip_collapse_eq_join (l : List Char) :
    stripTrail (stripLead (collapseAux l false)) = hyphenJoin (runsOf l) := by
  rw [collapseAux_false_eq, collapseAux_true_eq]
  rcases hr : runsOf l with _ | ⟨r, rest⟩
  · have hend : endHyphen l = [] := by
      unfold endHyphen
      rw [hr]
      rfl
    rw [hend]
    cases l with
    | nil => rfl
    | cons c cs =>
      by_cases hc : isSlugChar c
      · rw [runsOf_cons_pos cs hc] at hr
        exact absurd hr (List.cons_ne_nil _ _)
      · rw [show startHyphen (c :: cs) = ['-'] from by
          simp [startHyphen, eq_false_of_ne_true hc]]
        rfl
  · have hprops := runsOf_props l
    rw [hr] at hprops
    obtain ⟨hrne, hrall⟩ := hprops r (List.mem_cons_self r rest)
    obtain ⟨c0, r', rfl⟩ : ∃ c0 r', r = c0 :: r' := by
      cases r with
      | nil => exact absurd rfl hrne
      | cons a b => exact ⟨a, b, rfl⟩
    have hc0 : isSlugChar c0 = true := hrall c0 (List.mem_cons_self c0 r')
    have hc0' : c0 ≠ '-' := isSlugChar_ne_hyphen hc0
    have hlead : stripLead (startHyphen l ++ (hyphenJoin ((c0 :: r') :: rest) ++ endHyphen l))
        = hyphenJoin ((c0 :: r') :: rest) ++ endHyphen l := by
      have hstart : startHyphen l = [] ∨ startHyphen l = ['-'] := by
        cases l with
        | nil => exact Or.inl rfl
        | cons c cs =>
          by_cases hc : isSlugChar c
          · exact Or.inl (by simp [startHyphen, hc])
          · exact Or.inr (by simp [startHyphen, eq_false_of_ne_true hc])
      rcases hstart with hstart | hstart
      · rw [hstart, List.nil_append, hyphenJoin_consHead, List.cons_append,
          stripLead_ne_hyphen _ hc0', ← List.cons_append, ← hyphenJoin_consHead]
      · rw [hstart, List.singleton_append, stripLead_hyphen]
    rw [hlead]
    have hEnd : endHyphen l = ['-'] ∨ endHyphen l = [] := by
      unfold endHyphen
      split
      · exact Or.inl rfl
      · exact Or.inr rfl
    rcases hEnd with hEnd | hEnd
    · rw [hEnd, stripTrail_append_hyphen]
    · rw [hEnd, List.append_nil]
      obtain ⟨y, d, hj, hd⟩ := hyphenJoin_getLast ((c0 :: r') :: rest)
        (List.cons_ne_nil _ _) (hr ▸ runsOf_props l)
      rw [hj, stripTrail_append_ne y (isSlugChar_ne_hyphen hd)]

/-- The source slug derivation equals the spec-side slug derivation on every
title. -/
theorem slugOfTitle_eq_slugSpec (t : String) : slugOfTitle t = slugSpec t :=
  congrArg String.mk (strip_collapse_eq_join (t.data.map Char.toLower))

theorem one_le_length_iff (s : String) : 1 ≤ s.length ↔ s ≠ "" := by
  cases s with
  | mk data => cases data <;> simp [String.length, String.ext_iff]

/-- Claim C1: the slug derivation (shared by the explicit Generate action and
the title-change auto-derivation) lowercases the title, collapses every
maximal run of characters outside `[a-z0-9]` to a single hyphen and strips
the leading and trailing hyphen — equivalently, it joins the maximal
`[a-z0-9]` runs of the lowercased title with single hyphens; in particular it
maps `"Hello World"` and `"Hello World!!"` to `"hello-world"`. -/
theorem slug_derivation_spec (t : String) :
    slugOfTitle t = slugSpec t ∧
    slugOfTitle "Hello World" = "hello-world" ∧
    slugOfTitle "Hello World!!" = "hello-world" :=
  ⟨slugOfTitle_eq_slugSpec t, by decide, by decide⟩

/-- Claim C2: the form validation schema accepts a record exactly when the
title has length at least 5, the slug has length at least 5 and lies in the
language of `^[a-z0-9]+(?:-[a-z0-9]+)*$`, the excerpt has length at least 10,
the cover image is a non-empty string, and the status is `"draft"` or
`"published"` (content is unconstrained); the slug field validation accepts
`"my-post-123"` and `"abc12"` and rejects `"My Post"`, `"-leading"`,
`"trailing-"` and `"ab"` (too short). -/
theorem blogSchema_spec (b : BlogForm) :
    (blogSchemaValid b = true ↔
      (5 ≤ b.title.length ∧ 5 ≤ b.slug.length ∧ SlugPattern b.slug ∧
       10 ≤ b.excerpt.length ∧ b.coverImage ≠ "" ∧
       (b.status = "draft" ∨ b.status = "published"))) ∧
    slugFieldValid "my-post-123" = true ∧
    slugFieldValid "abc12" = true ∧
    slugFieldValid "My Post" = false ∧
    slugFieldValid "-leading" = false ∧
    slugFieldValid "trailing-" = false ∧
    slugFieldValid "ab" = false := by
  refine ⟨?_, by decide, by decide, by decide, by decide, by decide, by decide⟩
  rw [blogSchemaValid, slugFieldValid]
  simp only [Bool.and_eq_true, Bool.or_eq_true, decide_eq_true_eq, beq_iff_eq,
    slugRegex_iff, one_le_length_iff]
  tauto

/-- Claim C10: for every title, the derived slug is either empty or satisfies
the slug regex enforced by the validation schema; it may nevertheless be
shorter than the 5-character minimum, as `"Hi"` shows. -/
theorem slugOfTitle_pattern (t : String) :
    (slugOfTitle t = "" ∨ slugRegex (slugOfTitle t) = true) ∧
    slugOfTitle "Hi" = "hi" ∧
    slugFieldValid "hi" = false := by
  refine ⟨?_, by decide, by decide⟩
  rw [slugOfTitle_eq_slugSpec]
  rcases hr : runsOf (t.data.map Char.toLower) with _ | ⟨r, rest⟩
  · left
    unfold slugSpec
    rw [hr]
    rfl
  · right
    rw [slugRegex_iff]
    refine ⟨runsOf (t.data.map Char.toLower), ?_, runsOf_props _, rfl⟩
    rw [hr]
    exact List.cons_ne_nil r rest

end BlogApp
